import Mathlib

/-!
Verification of the broadcast engine of `src/app.py` and `src/app_ngrok.py`
(a live audio relay: a producer writes paced track bytes into a fixed-capacity
circular byte buffer; each listener drains it with a private read cursor).

The buffer, the playback state machine, the command surface and the listener
drain protocol are embedded as executable Lean functions, translated line by
line from the Python sources; machine integers are modelled as `Nat`
(Python integers are unbounded, and the write cursor is a logical counter that
is only reduced modulo the capacity when indexing the physical storage).
The capacity (`BUFFER_SIZE` in the sources) is a parameter `cap` of the
buffer operations so that the theorems quantify over it; the sources fix it to
the constants below.
-/

namespace Radio

/-- Constant from src/app.py line 13 (also app_ngrok.py line 14). -/
def CHUNK_SIZE : Nat := 1024 * 16

/-- Constant from src/app.py line 14. -/
def BUFFER_SIZE : Nat := 1024 * 1024 * 4

/-- Constant from src/app.py lines 15-16. -/
def BYTES_PER_SECOND : Nat := 128000 / 8

/-- Constant from src/app_ngrok.py line 15. -/
def NGROK_BUFFER_SIZE : Nat := 1024 * 1024 * 5

/-- Constant from src/app_ngrok.py lines 16-17. -/
def NGROK_BYTES_PER_SECOND : Nat := 160000 / 8

/-- The circular-buffer half of the source's `RadioState` (app.py lines 32-44):
`buffer = bytearray(BUFFER_SIZE)` and the monotonically increasing logical
write cursor `position`.  The physical storage is modelled as a total function
from slot index to byte value; only slots below the capacity are ever read. -/
structure BufState where
  position : Nat
  buffer : Nat → Nat

/-- The initial buffer state (app.py lines 34-35): all-zero storage, cursor 0. -/
def initBuf : BufState := ⟨0, fun _ => 0⟩

/-- Model of a Python slice assignment `buf[start : start + data.length] = data`. -/
def assignSlice (buf : Nat → Nat) (start : Nat) (data : List Nat) : Nat → Nat :=
  fun i => if start ≤ i ∧ i < start + data.length then data.getD (i - start) 0 else buf i

/-- The buffering block of the broadcaster, app.py lines 160-171 (identically
app_ngrok.py lines 135-146): `pos = position % BUFFER_SIZE`; a write whose end
`pos + len(chunk)` passes the physical end is split into two slice copies of
sizes `part1_size = BUFFER_SIZE - pos` and the remainder; finally
`position += len(chunk)`. -/
def writeChunk (cap : Nat) (s : BufState) (c : List Nat) : BufState where
  position := s.position + c.length
  buffer :=
    if s.position % cap + c.length > cap then
      assignSlice
        (assignSlice s.buffer (s.position % cap) (c.take (cap - s.position % cap)))
        0 (c.drop (cap - s.position % cap))
    else
      assignSlice s.buffer (s.position % cap) c

/-- A sequence of buffer writes (successive iterations of the chunk loop). -/
def writeAll (cap : Nat) (s : BufState) (chunks : List (List Nat)) : BufState :=
  chunks.foldl (writeChunk cap) s

/-- The read of the stream drain loop, app.py lines 205-215 (identically
app_ngrok.py lines 170-179), generalised over the read length exactly as the
spec's `readFrom(position, length)`: `pos = clientPos % BUFFER_SIZE`; a read
whose end passes the physical end concatenates `buffer[pos:]` with
`buffer[:end - BUFFER_SIZE]`. -/
def readFrom (cap : Nat) (s : BufState) (clientPos len : Nat) : List Nat :=
  let pos := clientPos % cap
  if pos + len > cap then
    ((List.range (cap - pos)).map fun i => s.buffer (pos + i)) ++
      ((List.range (pos + len - cap)).map fun i => s.buffer i)
  else
    (List.range len).map fun i => s.buffer (pos + i)

/-- One pass of the consumer drain loop, app.py lines 201-231 (app_ngrok.py
lines 166-189): compute `available = position - client_pos`; if at least a
chunk is available, read `chunkSize` bytes at the cursor and advance the
cursor by the bytes returned, else yield nothing this pass. -/
def drainStep (cap chunkSize : Nat) (s : BufState) (clientPos : Nat) :
    Option (List Nat × Nat) :=
  if s.position - clientPos ≥ chunkSize then
    some (readFrom cap s clientPos chunkSize, clientPos + chunkSize)
  else
    none

/-- Session creation, app.py line 195 / app_ngrok.py line 164:
`client_pos = state.position` — the read cursor starts at the write cursor. -/
def sessionInit (s : BufState) : Nat := s.position

theorem writeChunk_position (cap : Nat) (s : BufState) (c : List Nat) :
    (writeChunk cap s c).position = s.position + c.length := rfl

theorem writeAll_position (cap : Nat) (s : BufState) (chunks : List (List Nat)) :
    (writeAll cap s chunks).position = s.position + (chunks.map List.length).sum := by
  induction chunks generalizing s with
  | nil => simp [writeAll]
  | cons c cs ih =>
    simp only [writeAll, List.foldl_cons, List.map_cons, List.sum_cons]
    rw [show List.foldl (writeChunk cap) (writeChunk cap s c) cs
          = writeAll cap (writeChunk cap s c) cs from rfl, ih]
    simp [writeChunk_position]
    omega

theorem writeAll_init_position (cap : Nat) (chunks : List (List Nat)) :
    (writeAll cap initBuf chunks).position = chunks.flatten.length := by
  rw [writeAll_position, List.length_flatten]
  simp [initBuf]

theorem writeAll_append_single (cap : Nat) (s : BufState) (l : List (List Nat))
    (c : List Nat) :
    writeAll cap s (l ++ [c]) = writeChunk cap (writeAll cap s l) c := by
  simp [writeAll, List.foldl_append]

theorem getD_take (l : List Nat) (k j d : Nat) (h : j < k) :
    (l.take k).getD j d = l.getD j d := by
  induction l generalizing k j with
  | nil => simp
  | cons a as ih =>
    cases k with
    | zero => omega
    | succ k =>
      cases j with
      | zero => simp [List.getD]
      | succ j => simpa [List.getD] using ih k j (by omega)

theorem getD_drop (l : List Nat) (k j d : Nat) :
    (l.drop k).getD j d = l.getD (k + j) d := by
  induction l generalizing k with
  | nil => simp
  | cons a as ih =>
    cases k with
    | zero => simp
    | succ k =>
      show (as.drop k).getD j d = (a :: as).getD (k + 1 + j) d
      rw [ih k, show k + 1 + j = (k + j) + 1 from by omega, List.getD_cons_succ]

theorem getD_range_map (f : Nat → Nat) (n j : Nat) (hj : j < n) :
    ((List.range n).map f).getD j 0 = f j := by
  rw [List.getD_eq_getElem _ _ (by simpa using hj)]
  simp

theorem assignSlice_hit (buf : Nat → Nat) (start : Nat) (data : List Nat) (i : Nat)
    (h1 : start ≤ i) (h2 : i < start + data.length) :
    assignSlice buf start data i = data.getD (i - start) 0 := by
  simp [assignSlice, h1, h2]

theorem assignSlice_miss (buf : Nat → Nat) (start : Nat) (data : List Nat) (i : Nat)
    (h : ¬(start ≤ i ∧ i < start + data.length)) :
    assignSlice buf start data i = buf i := by
  simp only [assignSlice, if_neg h]

theorem writeChunk_buffer_hit (cap : Nat) (hc : 0 < cap) (s : BufState) (c : List Nat)
    (hlen : c.length ≤ cap) (j : Nat) (hj : j < c.length) :
    (writeChunk cap s c).buffer ((s.position + j) % cap) = c.getD j 0 := by
  have hm : s.position % cap < cap := Nat.mod_lt _ hc
  have hjc : j < cap := lt_of_lt_of_le hj hlen
  have hmod : (s.position + j) % cap = (s.position % cap + j) % cap := by
    conv_lhs => rw [Nat.add_mod]
    rw [Nat.mod_eq_of_lt hjc]
  by_cases hspl : s.position % cap + c.length > cap
  · have hbuf : (writeChunk cap s c).buffer =
        assignSlice
          (assignSlice s.buffer (s.position % cap)
            (c.take (cap - s.position % cap)))
          0 (c.drop (cap - s.position % cap)) := by
      simp only [writeChunk, if_pos hspl]
    have htakelen : (c.take (cap - s.position % cap)).length = cap - s.position % cap := by
      simp; omega
    have hdroplen : (c.drop (cap - s.position % cap)).length =
        c.length - (cap - s.position % cap) := by
      simp
    by_cases hj1 : j < cap - s.position % cap
    · have hslot : (s.position + j) % cap = s.position % cap + j := by
        rw [hmod, Nat.mod_eq_of_lt (by omega)]
      rw [hbuf, hslot,
        assignSlice_miss _ _ _ _ (by rw [hdroplen]; omega),
        assignSlice_hit _ _ _ _ (by omega) (by rw [htakelen]; omega),
        Nat.add_sub_cancel_left]
      exact getD_take _ _ _ _ hj1
    · have hslot : (s.position + j) % cap = j - (cap - s.position % cap) := by
        rw [hmod, Nat.mod_eq_sub_mod (by omega), Nat.mod_eq_of_lt (by omega)]
        omega
      rw [hbuf, hslot,
        assignSlice_hit _ _ _ _ (by omega) (by rw [hdroplen]; omega)]
      rw [Nat.sub_zero, getD_drop]
      congr 1
      omega
  · have hbuf : (writeChunk cap s c).buffer =
        assignSlice s.buffer (s.position % cap) c := by
      simp only [writeChunk, if_neg hspl]
    have hslot : (s.position + j) % cap = s.position % cap + j := by
      rw [hmod, Nat.mod_eq_of_lt (by omega)]
    rw [hbuf, hslot, assignSlice_hit _ _ _ _ (by omega) (by omega),
      Nat.add_sub_cancel_left]

theorem writeChunk_buffer_miss (cap : Nat) (hc : 0 < cap) (s : BufState) (c : List Nat)
    (hlen : c.length ≤ cap) (i : Nat) (hi : i < cap)
    (h : ∀ j, j < c.length → (s.position + j) % cap ≠ i) :
    (writeChunk cap s c).buffer i = s.buffer i := by
  have hm : s.position % cap < cap := Nat.mod_lt _ hc
  have hmod : ∀ j, j < c.length → (s.position + j) % cap = (s.position % cap + j) % cap := by
    intro j hj
    conv_lhs => rw [Nat.add_mod]
    rw [Nat.mod_eq_of_lt (lt_of_lt_of_le hj hlen)]
  by_cases hspl : s.position % cap + c.length > cap
  · have hbuf : (writeChunk cap s c).buffer =
        assignSlice
          (assignSlice s.buffer (s.position % cap)
            (c.take (cap - s.position % cap)))
          0 (c.drop (cap - s.position % cap)) := by
      simp only [writeChunk, if_pos hspl]
    have htakelen : (c.take (cap - s.position % cap)).length = cap - s.position % cap := by
      simp; omega
    have hdroplen : (c.drop (cap - s.position % cap)).length =
        c.length - (cap - s.position % cap) := by
      simp
    rw [hbuf]
    rw [assignSlice_miss]
    · rw [assignSlice_miss]
      rw [htakelen]
      intro ⟨h1, h2⟩
      have hj : i - s.position % cap < c.length := by omega
      apply h (i - s.position % cap) hj
      rw [hmod _ hj, Nat.mod_eq_of_lt (by omega)]
      omega
    · rw [hdroplen]
      intro ⟨h1, h2⟩
      have hj : cap - s.position % cap + i < c.length := by omega
      apply h (cap - s.position % cap + i) hj
      rw [hmod _ hj, Nat.mod_eq_sub_mod (by omega), Nat.mod_eq_of_lt (by omega)]
      omega
  · have hbuf : (writeChunk cap s c).buffer =
        assignSlice s.buffer (s.position % cap) c := by
      simp only [writeChunk, if_neg hspl]
    rw [hbuf, assignSlice_miss]
    intro ⟨h1, h2⟩
    have hj : i - s.position % cap < c.length := by omega
    apply h (i - s.position % cap) hj
    rw [hmod _ hj, Nat.mod_eq_of_lt (by omega)]
    omega

theorem mod_ne_of_between (cap p q : Nat) (_hc : 0 < cap) (hlt : p < q)
    (hub : q < p + cap) : q % cap ≠ p % cap := by
  intro heq
  have hmodeq : p ≡ q [MOD cap] := heq.symm
  have hdvd : cap ∣ q - p := (Nat.modEq_iff_dvd' (le_of_lt hlt)).mp hmodeq
  have := Nat.le_of_dvd (by omega) hdvd
  omega

theorem writeAll_buffer_recent (cap : Nat) (hc : 0 < cap) (chunks : List (List Nat)) :
    (∀ c ∈ chunks, c.length ≤ cap) → ∀ p, p < chunks.flatten.length →
      chunks.flatten.length ≤ p + cap →
      (writeAll cap initBuf chunks).buffer (p % cap) = chunks.flatten.getD p 0 := by
  induction chunks using List.reverseRecOn with
  | nil =>
    intro _ p hp _
    simp at hp
  | append_singleton l c ih =>
    intro hlen p hp hrecent
    have hflat : (l ++ [c]).flatten = l.flatten ++ c := by simp
    have hlenc : c.length ≤ cap := hlen c (by simp)
    have hlenl : ∀ x ∈ l, x.length ≤ cap := fun x hx => hlen x (by simp [hx])
    have hq : (writeAll cap initBuf l).position = l.flatten.length :=
      writeAll_init_position cap l
    rw [hflat] at hp hrecent ⊢
    simp only [List.length_append] at hp hrecent
    rw [writeAll_append_single]
    by_cases hpq : p < l.flatten.length
    · rw [writeChunk_buffer_miss cap hc _ c hlenc _ (Nat.mod_lt _ hc)]
      · rw [ih hlenl p hpq (by omega), List.getD_append _ _ _ _ hpq]
      · intro j hj
        rw [hq]
        exact mod_ne_of_between cap p (l.flatten.length + j) hc (by omega) (by omega)
    · have hj : p - l.flatten.length < c.length := by omega
      have hit := writeChunk_buffer_hit cap hc (writeAll cap initBuf l) c hlenc
        (p - l.flatten.length) hj
      rw [hq, show l.flatten.length + (p - l.flatten.length) = p from by omega] at hit
      rw [hit, List.getD_append_right _ _ _ _ (by omega)]

theorem writeAll_buffer_latest (cap : Nat) (hc : 0 < cap) (chunks : List (List Nat)) :
    (∀ c ∈ chunks, c.length ≤ cap) → ∀ p, p < chunks.flatten.length →
      ∃ q, p ≤ q ∧ q < chunks.flatten.length ∧ q % cap = p % cap ∧
        (writeAll cap initBuf chunks).buffer (p % cap) = chunks.flatten.getD q 0 := by
  induction chunks using List.reverseRecOn with
  | nil =>
    intro _ p hp
    simp at hp
  | append_singleton l c ih =>
    intro hlen p hp
    have hflat : (l ++ [c]).flatten = l.flatten ++ c := by simp
    have hlenc : c.length ≤ cap := hlen c (by simp)
    have hlenl : ∀ x ∈ l, x.length ≤ cap := fun x hx => hlen x (by simp [hx])
    have hq : (writeAll cap initBuf l).position = l.flatten.length :=
      writeAll_init_position cap l
    rw [hflat] at hp ⊢
    simp only [List.length_append] at hp ⊢
    rw [writeAll_append_single]
    by_cases hpq : p < l.flatten.length
    · by_cases htouch : ∃ j, j < c.length ∧ (l.flatten.length + j) % cap = p % cap
      · obtain ⟨j, hj, hslot⟩ := htouch
        have hit := writeChunk_buffer_hit cap hc (writeAll cap initBuf l) c hlenc j hj
        rw [hq, hslot] at hit
        refine ⟨l.flatten.length + j, by omega, by omega, hslot, ?_⟩
        rw [hit, List.getD_append_right _ _ _ _ (by omega), Nat.add_sub_cancel_left]
      · push_neg at htouch
        rw [writeChunk_buffer_miss cap hc _ c hlenc _ (Nat.mod_lt _ hc)]
        · obtain ⟨q, hq1, hq2, hq3, hq4⟩ := ih hlenl p hpq
          exact ⟨q, hq1, by omega, hq3, by rw [hq4, List.getD_append _ _ _ _ hq2]⟩
        · intro j hj
          rw [hq]
          exact htouch j hj
    · have hj : p - l.flatten.length < c.length := by omega
      have hit := writeChunk_buffer_hit cap hc (writeAll cap initBuf l) c hlenc
        (p - l.flatten.length) hj
      rw [hq, show l.flatten.length + (p - l.flatten.length) = p from by omega] at hit
      refine ⟨p, le_refl p, by omega, rfl, ?_⟩
      rw [hit, List.getD_append_right _ _ _ _ (by omega)]

theorem readFrom_length (cap : Nat) (hc : 0 < cap) (s : BufState) (pos len : Nat)
    (_hlen : len ≤ cap) : (readFrom cap s pos len).length = len := by
  have hm : pos % cap < cap := Nat.mod_lt _ hc
  unfold readFrom
  by_cases h : pos % cap + len > cap
  · simp only [if_pos h, List.length_append, List.length_map, List.length_range]
    omega
  · simp only [if_neg h, List.length_map, List.length_range]

theorem readFrom_getD (cap : Nat) (hc : 0 < cap) (s : BufState) (pos len j : Nat)
    (hlen : len ≤ cap) (hj : j < len) :
    (readFrom cap s pos len).getD j 0 = s.buffer ((pos + j) % cap) := by
  have hm : pos % cap < cap := Nat.mod_lt _ hc
  have hmod : (pos + j) % cap = (pos % cap + j) % cap := by
    conv_lhs => rw [Nat.add_mod]
    rw [Nat.mod_eq_of_lt (lt_of_lt_of_le hj hlen)]
  unfold readFrom
  by_cases h : pos % cap + len > cap
  · simp only [if_pos h]
    by_cases hj1 : j < cap - pos % cap
    · have hb : j < ((List.range (cap - pos % cap)).map fun i =>
          s.buffer (pos % cap + i)).length := by
        simpa using hj1
      rw [List.getD_append _ _ 0 j hb, getD_range_map _ _ _ hj1, hmod,
        Nat.mod_eq_of_lt (show pos % cap + j < cap by omega)]
    · have hb : ((List.range (cap - pos % cap)).map fun i =>
          s.buffer (pos % cap + i)).length ≤ j := by
        simpa using le_of_not_lt hj1
      rw [List.getD_append_right _ _ 0 j hb]
      simp only [List.length_map, List.length_range]
      rw [getD_range_map _ _ _ (show j - (cap - pos % cap) < pos % cap + len - cap
          by omega)]
      rw [hmod, Nat.mod_eq_sub_mod (show cap ≤ pos % cap + j by omega),
        Nat.mod_eq_of_lt (show pos % cap + j - cap < cap by omega)]
      congr 1
      omega
  · simp only [if_neg h]
    rw [getD_range_map _ _ _ hj, hmod,
      Nat.mod_eq_of_lt (show pos % cap + j < cap by omega)]

/-- Claim C1: after any sequence of buffer writes (each chunk at most the
capacity, as in the sources where chunks are at most `CHUNK_SIZE` and
`CHUNK_SIZE ≤ BUFFER_SIZE`), reading `len` bytes at any absolute position `p`
that is valid (`p + len ≤ writeCursor` and `writeCursor ≤ p + cap`, i.e. the
range is written and at most one capacity behind) returns exactly the bytes
most recently written to logical positions `p, p+1, ...` — the corresponding
slice of the concatenated logical byte stream.  With `len = 1` this is the
single-byte property, and instantiated after writing `capacity + k` bytes at
`p = capacity` it returns the second-pass bytes; writes that straddle the
physical end are split into two copies and straddling reads reassemble the two
segments in logical order («readFrom»'s append branch). -/
theorem c1_read_returns_latest (cap : Nat) (hc : 0 < cap) (chunks : List (List Nat))
    (hlen : ∀ c ∈ chunks, c.length ≤ cap) (p len : Nat)
    (hval : p + len ≤ (writeAll cap initBuf chunks).position)
    (hrecent : (writeAll cap initBuf chunks).position ≤ p + cap) :
    readFrom cap (writeAll cap initBuf chunks) p len =
      (List.range len).map fun j => chunks.flatten.getD (p + j) 0 := by
  have htot := writeAll_init_position cap chunks
  have hlenle : len ≤ cap := by omega
  apply List.ext_getElem
  · rw [readFrom_length cap hc _ p len hlenle]
    simp
  · intro i h1 h2
    have hi : i < len := by
      rwa [readFrom_length cap hc _ p len hlenle] at h1
    rw [← List.getD_eq_getElem _ 0 h1, ← List.getD_eq_getElem _ 0 h2]
    rw [readFrom_getD cap hc _ p len i hlenle hi, getD_range_map _ _ _ hi]
    exact writeAll_buffer_recent cap hc chunks hlen (p + i) (by omega) (by omega)

/-- Witness for C1: capacity 3, write 2 + 3 = 5 bytes (the second write
straddles the physical end), then read the 2 bytes at position 3 — one
capacity behind is still valid and returns the second-pass data. -/
theorem c1_read_returns_latest_witness :
    readFrom 3 (writeAll 3 initBuf [[1, 2], [3, 4, 5]]) 3 2 =
      (List.range 2).map fun j => ([[1, 2], [3, 4, 5]] : List (List Nat)).flatten.getD (3 + j) 0 :=
  c1_read_returns_latest 3 (by decide) [[1, 2], [3, 4, 5]] (by decide) 3 2
    (by decide) (by decide)

/-- Claim C10: across every sequence of buffer writes the write cursor
`state.position` never decreases and never wraps — each single write advances
it by exactly the chunk length (first conjunct), a whole sequence advances it
by exactly the total number of bytes written (second conjunct, so it is a
logical, not physical, counter: no reduction modulo the capacity is ever
applied to it), and in particular it never decreases (third conjunct). -/
theorem c10_write_cursor_monotonic (cap : Nat) (s : BufState) (c : List Nat)
    (chunks : List (List Nat)) :
    (writeChunk cap s c).position = s.position + c.length ∧
      (writeAll cap s chunks).position = s.position + (chunks.map List.length).sum ∧
      s.position ≤ (writeAll cap s chunks).position := by
  refine ⟨writeChunk_position cap s c, writeAll_position cap s chunks, ?_⟩
  rw [writeAll_position]
  omega

/-- Claim C2 counterexample: capacity 4, chunk size 2.  The producer has
written 8 bytes, the session cursor is still 0, so the session fell
`8 - 0 = 8 > 4` — more than one buffer capacity — behind.  The claim says the
next drain step detects this overrun and resynchronizes the cursor to the
write cursor (8); the code's drain step does no such check: it returns the
bytes now occupying slots 0 and 1 (which are `[5, 6]`, from the second write
pass — not the bytes `[1, 2]` that were written at logical positions 0 and 1)
and advances the cursor merely to 2, not to the write cursor. -/
theorem c2_overrun_not_resynced_cex :
    (writeAll 4 initBuf [[1, 2, 3, 4], [5, 6, 7, 8]]).position - 0 > 4 ∧
      drainStep 4 2 (writeAll 4 initBuf [[1, 2, 3, 4], [5, 6, 7, 8]]) 0 =
        some ([5, 6], 2) ∧
      (2 : Nat) ≠ (writeAll 4 initBuf [[1, 2, 3, 4], [5, 6, 7, 8]]).position ∧
      ([5, 6] : List Nat) ≠ [1, 2] := by
  refine ⟨by decide, by decide, by decide, by decide⟩

/-- Claim C2 as amended: the drain loop never checks for overrun.  Whenever at
least `chunkSize` bytes are available — in particular whenever the session has
fallen more than one buffer capacity behind — the next drain step simply
returns the `chunkSize` bytes currently stored at the stale cursor's slots
(data from newer writes, i.e. stale/corrupted output rather than the lost
bytes) and advances the cursor by `chunkSize`; the cursor is never
resynchronized to the write cursor.  The session does keep running (it does
not fail permanently), but only because the overrun is silently ignored. -/
theorem c2_overrun_drain_continues (cap chunkSize : Nat) (s : BufState) (c : Nat)
    (_hover : s.position - c > cap) (hav : chunkSize ≤ s.position - c) :
    drainStep cap chunkSize s c = some (readFrom cap s c chunkSize, c + chunkSize) := by
  unfold drainStep
  rw [if_pos hav]

/-- Witness for the amended C2: capacity 3, the producer wrote 6 bytes, the
cursor is 0 (overrun: 6 > 3); the next drain step reads at the stale cursor
and advances it by the chunk size only. -/
theorem c2_overrun_drain_continues_witness :
    drainStep 3 2 (writeAll 3 initBuf [[1, 2, 3], [4, 5, 6]]) 0 =
      some (readFrom 3 (writeAll 3 initBuf [[1, 2, 3], [4, 5, 6]]) 0 2, 0 + 2) :=
  c2_overrun_drain_continues 3 2 (writeAll 3 initBuf [[1, 2, 3], [4, 5, 6]]) 0
    (by decide) (by decide)

/-- Claim C6: a stream session is created with its read cursor equal to the
buffer's write cursor at connection time (app.py line 195 /app_ngrok.py line
164: `client_pos = state.position`), call it `N`; and for every later buffer
state (after any further writes `post`) and every cursor value `c ≥ N` the
session can have reached (drain steps only move the cursor forward, first
conjunct), every byte a drain step yields is the byte of some logical position
`q ≥ N` of the written stream — the session never observes a byte written
before `N`. -/
theorem c6_session_only_new_bytes (cap chunkSize : Nat) (hc : 0 < cap)
    (hch : 0 < chunkSize) (hchle : chunkSize ≤ cap)
    (pre post : List (List Nat)) (hlen : ∀ x ∈ pre ++ post, x.length ≤ cap)
    (c : Nat) (hcge : sessionInit (writeAll cap initBuf pre) ≤ c)
    (out : List Nat) (c' : Nat)
    (hstep : drainStep cap chunkSize (writeAll cap initBuf (pre ++ post)) c =
      some (out, c')) :
    c ≤ c' ∧ ∀ j, j < out.length →
      ∃ q, sessionInit (writeAll cap initBuf pre) ≤ q ∧
        q < (writeAll cap initBuf (pre ++ post)).position ∧
        out.getD j 0 = (pre ++ post).flatten.getD q 0 := by
  have hN : sessionInit (writeAll cap initBuf pre) = pre.flatten.length := by
    rw [sessionInit, writeAll_init_position]
  have htot := writeAll_init_position cap (pre ++ post)
  have htot' : pre.flatten.length ≤ (pre ++ post).flatten.length := by
    simp only [List.flatten_append, List.length_append]
    omega
  unfold drainStep at hstep
  by_cases hav : (writeAll cap initBuf (pre ++ post)).position - c ≥ chunkSize
  · rw [if_pos hav] at hstep
    obtain ⟨hout, hc'⟩ : readFrom cap (writeAll cap initBuf (pre ++ post)) c chunkSize
        = out ∧ c + chunkSize = c' := by
      have := Option.some.inj hstep
      exact ⟨congrArg Prod.fst this, congrArg Prod.snd this⟩
    constructor
    · omega
    · intro j hj
      have hjlt : j < chunkSize := by
        rw [← hout, readFrom_length cap hc _ c chunkSize hchle] at hj
        exact hj
      have hcj : c + j < (pre ++ post).flatten.length := by omega
      obtain ⟨q, hq1, hq2, _, hq4⟩ :=
        writeAll_buffer_latest cap hc (pre ++ post) hlen (c + j) hcj
      refine ⟨q, by omega, by omega, ?_⟩
      rw [← hout, readFrom_getD cap hc _ c chunkSize j hchle hjlt, hq4]
  · rw [if_neg hav] at hstep
    exact absurd hstep (by simp)

/-- Witness for C6: capacity 3, session connects after the 2-byte write
(`N = 2`), the producer then writes 2 more bytes; draining one byte at
cursor 2 yields the byte of logical position 2 — written after connection. -/
theorem c6_session_only_new_bytes_witness :
    2 ≤ 3 ∧ ∀ j, j < ([3] : List Nat).length →
      ∃ q, sessionInit (writeAll 3 initBuf [[1, 2]]) ≤ q ∧
        q < (writeAll 3 initBuf ([[1, 2]] ++ [[3, 4]])).position ∧
        ([3] : List Nat).getD j 0 = ([[1, 2]] ++ [[3, 4]]).flatten.getD q 0 :=
  c6_session_only_new_bytes 3 1 (by decide) (by decide) (by decide)
    [[1, 2]] [[3, 4]] (by decide) 2 (by decide) [3] 3 (by decide)

/-- The playback half of the source's `RadioState` (app.py lines 27-44):
the fields mutated by `play_song` and the broadcaster loop.  The playlist and
its derived index-to-display-name `song_map` are modelled as the list of
display names handed to the selection pass. -/
structure EngState where
  song_index : Nat
  skip_requested : Bool
  force_change : Bool
  last_song : String
  current_song : String
  is_playing : Bool
  deriving DecidableEq

/-- app.py lines 84-94 (identically app_ngrok.py lines 77-87): `selectTrack`.
`song_index = song_number - 1` (1-based to 0-based, possibly negative); on
success store the index, set the intent flags `skip_requested` and
`force_change`, clear `last_song`, and return `(True, song_index)`; otherwise
return `(False, -1)` without touching any state field. -/
def play_song (files : List String) (song_number : Nat) (st : EngState) :
    Bool × Int × EngState :=
  let song_index : Int := (song_number : Int) - 1
  if 0 ≤ song_index ∧ song_index < (files.length : Int) then
    (true, song_index,
      { st with song_index := song_index.toNat, skip_requested := true,
                force_change := true, last_song := "" })
  else
    (false, -1, st)

/-- The mid-stream skip path: the chunk-loop skip check (app.py lines 154-157
/ app_ngrok.py lines 130-133) clears `skip_requested` and breaks out of the
chunk loop, after which the track-transition block (app.py lines 181-183 /
app_ngrok.py lines 150-152) clears `is_playing` and advances
`song_index = (song_index + 1) % len(files)`. -/
def skipBreakAdvance (n : Nat) (st : EngState) : EngState :=
  { st with skip_requested := false, is_playing := false,
            song_index := (st.song_index + 1) % n }

/-- One selection pass of the app_ngrok.py broadcaster loop (lines 103-122):
read and clear `force_change` (clearing `last_song` when it was set); look up
the candidate's display name; if it equals `last_song` and no force-change is
pending, bump the index and play nothing this pass (`none`); otherwise clear
`skip_requested`, publish `current_song` / `is_playing` / `last_song`, and
play the candidate index (`some index`).  app.py lines 111-133 are the same
logic with an extra reset of an out-of-range index (and without clearing
`last_song` on force-change, which `play_song` already cleared). -/
def selectPassNgrok (files : List String) (st : EngState) : Option Nat × EngState :=
  let force_change := st.force_change
  let st1 : EngState :=
    { st with force_change := false,
              last_song := if force_change then "" else st.last_song }
  let song_name := files.getD st1.song_index ""
  if song_name = st1.last_song ∧ force_change = false then
    (none, { st1 with song_index := (st1.song_index + 1) % files.length })
  else
    (some st1.song_index,
      { st1 with skip_requested := false, current_song := song_name,
                 is_playing := true, last_song := song_name })

/-- A concrete playback state: the engine is mid-stream of track "a"
(index 0, already recorded as `last_song`). -/
def streamingSt : EngState :=
  { song_index := 0, skip_requested := false, force_change := false,
    last_song := "a", current_song := "a", is_playing := true }

/-- Claim C3 is wrong about the code (code bug): on the playlist
`["a", "b", "c"]` with the engine mid-stream of track 1, `selectTrack(2)`
succeeds and stores index 1 (first two conjuncts; the `/play` endpoint then
reports track 2 as now playing), but the skip path runs the shared
track-transition block, which increments the just-selected index, so the very
next selection pass plays `some 2` — track 3, not the requested track 2
(the force-change flag does override the repeat guard, but for the wrong
track).  The same lines exist verbatim in app.py. -/
theorem c3_select_track_overshoot :
    (play_song ["a", "b", "c"] 2 streamingSt).1 = true ∧
      (play_song ["a", "b", "c"] 2 streamingSt).2.2.song_index = 1 ∧
      (selectPassNgrok ["a", "b", "c"]
        (skipBreakAdvance 3 (play_song ["a", "b", "c"] 2 streamingSt).2.2)).1 =
        some 2 ∧
      some 2 ≠ some 1 := by
  refine ⟨by decide, by decide, by decide, by decide⟩

/-- Python's `threading.Lock` is not reentrant: a thread that acquires it
while already holding it blocks forever.  A handler's behaviour on the single
engine lock is modelled as its sequence of acquire/release actions, executed
by one thread. -/
inductive LockAct where
  | acquire
  | release
  deriving DecidableEq

/-- Runs a single thread's sequence of actions against one non-reentrant lock
(the Bool is whether this thread already holds it); returns `true` iff the
sequence runs to completion, `false` if it blocks forever acquiring the
already-held lock. -/
def runLock : Bool → List LockAct → Bool
  | _, [] => true
  | false, LockAct.acquire :: rest => runLock true rest
  | true, LockAct.acquire :: _ => false
  | _, LockAct.release :: rest => runLock false rest

/-- Lock actions of the `/next` handler `next_song` (app.py lines 259-270,
identically app_ngrok.py lines 233-246): `with state.lock:` around the whole
body, which calls `play_song`, whose body is again `with state.lock:`. -/
def next_song_locks : List LockAct :=
  [LockAct.acquire, LockAct.acquire, LockAct.release, LockAct.release]

/-- Lock actions of the `/play/<n>` handler `play_song_endpoint` (app.py
lines 247-257): `play_song`'s lock is taken and released first, and only then
is the response built under a second, separate `with state.lock:`. -/
def play_endpoint_locks : List LockAct :=
  [LockAct.acquire, LockAct.release, LockAct.acquire, LockAct.release]

/-- Claim C9 is wrong about the code (code bug): `next_song` does compute
`(song_index + 1) % len(playlist)` and delegate to `play_song`, but it makes
that call while still holding `state.lock`, and `play_song` immediately
re-acquires the same non-reentrant `threading.Lock` — so for every nonempty
playlist the `/next` handler blocks forever and never returns a response
(first conjunct: its lock trace does not run to completion).  The `/play`
handler, which calls `play_song` outside its response lock, completes
(second conjunct) — the deadlock is specific to `/next`'s nesting. -/
theorem c9_next_song_deadlocks :
    runLock false next_song_locks = false ∧
      runLock false play_endpoint_locks = true := by
  refine ⟨by decide, by decide⟩

/-- Result of a `/play` endpoint call: the success body's song, or an HTTP
error code with its message. -/
inductive PlayResp where
  | success (song : String)
  | httpError (code : Nat) (message : String)
  deriving DecidableEq

/-- app.py line 257: the invalid-selection message of the response body (the
source file literally contains `?` in place of the accented letters). -/
def appInvalidMsg : String := "N?mero inv?lido"

/-- app_ngrok.py lines 228-231: the invalid-selection message, embedding the
requested number and the valid range `1-<playlist length>`. -/
def ngrokInvalidMsg (song_number n : Nat) : String :=
  "Número inválido: " ++ toString song_number ++ ". Rango válido: " ++
    ("1-" ++ toString n)

/-- app.py lines 247-257: `/play/<song_number>`; on success the body carries
`song_map.get(index, "Canci?n #<n>")` (the song map is the display-name list
itself here), on failure HTTP 400 with the fixed message. -/
def play_song_endpoint_app (files : List String) (num : Nat) (st : EngState) :
    PlayResp × EngState :=
  match play_song files num st with
  | (true, index, st1) =>
      (PlayResp.success (files.getD index.toNat ("Canci?n #" ++ toString num)), st1)
  | (false, _, st1) => (PlayResp.httpError 400 appInvalidMsg, st1)

/-- app_ngrok.py lines 217-231: `/play/<song_number>`; on failure HTTP 400
with the range-bearing message (the success body's auxiliary message is
omitted from the model). -/
def play_song_endpoint_ngrok (files : List String) (num : Nat) (st : EngState) :
    PlayResp × EngState :=
  match play_song files num st with
  | (true, index, st1) => (PlayResp.success (files.getD index.toNat ""), st1)
  | (false, _, st1) =>
      (PlayResp.httpError 400 (ngrokInvalidMsg num files.length), st1)

/-- Whether `pat` is a leading segment of `s` (character lists). -/
def startsWith : List Char → List Char → Bool
  | [], _ => true
  | _ :: _, [] => false
  | a :: as, b :: bs => a = b && startsWith as bs

/-- Whether `pat` occurs as a contiguous substring of `s`. -/
def hasSub (pat : List Char) : List Char → Bool
  | [] => startsWith pat []
  | c :: rest => startsWith pat (c :: rest) || hasSub pat rest

/-- Formalisation of «the message names the valid range»: the message
contains the substring `1-<n>` where `n` is the playlist length (which is how
app_ngrok.py's message spells the range). -/
def namesValidRange (msg : String) (n : Nat) : Bool :=
  hasSub ("1-" ++ toString n).toList msg.toList

theorem startsWith_self (l : List Char) : startsWith l l = true := by
  induction l with
  | nil => rfl
  | cons a as ih => simp [startsWith, ih]

theorem hasSub_suffix (pat front : List Char) : hasSub pat (front ++ pat) = true := by
  induction front with
  | nil =>
    cases pat with
    | nil => rfl
    | cons a as =>
      show (startsWith (a :: as) (a :: as) || hasSub (a :: as) as) = true
      rw [startsWith_self, Bool.true_or]
  | cons c rest ih =>
    show (startsWith pat (c :: (rest ++ pat)) || hasSub pat (rest ++ pat)) = true
    rw [ih, Bool.or_true]

theorem string_toList_append (s t : String) : (s ++ t).toList = s.toList ++ t.toList := by
  cases s
  cases t
  rfl

theorem ngrokInvalidMsg_names_range (num n : Nat) :
    namesValidRange (ngrokInvalidMsg num n) n = true := by
  unfold namesValidRange ngrokInvalidMsg
  rw [string_toList_append]
  exact hasSub_suffix _ _

/-- Claim C4 counterexample: `selectTrack(5)` on the 1-track playlist through
app.py's `/play` endpoint.  The call is rejected without mutating any state
field (that part of the claim holds), but the error message is the fixed
string `N?mero inv?lido`, which does not name the valid range `1-1` — so the
«message names the valid range» part of the claim is false for app.py. -/
theorem c4_invalid_message_cex :
    play_song_endpoint_app ["a"] 5 streamingSt =
        (PlayResp.httpError 400 appInvalidMsg, streamingSt) ∧
      namesValidRange appInvalidMsg 1 = false := by
  refine ⟨by decide, by decide⟩

/-- Claim C4 as amended: for every call with `number` outside
`[1, playlistLength]` (including the empty playlist), `play_song` mutates no
state field — in particular `song_index` is unchanged — and reports failure,
and both `/play` endpoints return the HTTP 400 invalid-selection response
leaving the state untouched; app_ngrok.py's message names the valid range
(the substring `1-<length>` occurs in it), whereas app.py's message is the
fixed text `N?mero inv?lido` without the range. -/
theorem c4_invalid_selection_amended (files : List String) (num : Nat)
    (st : EngState) (hout : num = 0 ∨ files.length < num) :
    play_song files num st = (false, -1, st) ∧
      play_song_endpoint_app files num st =
        (PlayResp.httpError 400 appInvalidMsg, st) ∧
      play_song_endpoint_ngrok files num st =
        (PlayResp.httpError 400 (ngrokInvalidMsg num files.length), st) ∧
      namesValidRange (ngrokInvalidMsg num files.length) files.length = true := by
  have hps : play_song files num st = (false, -1, st) := by
    unfold play_song
    rw [if_neg]
    intro ⟨h1, h2⟩
    rcases hout with h | h <;> omega
  refine ⟨hps, ?_, ?_, ngrokInvalidMsg_names_range num files.length⟩
  · unfold play_song_endpoint_app
    rw [hps]
  · unfold play_song_endpoint_ngrok
    rw [hps]

/-- Witness for the amended C4: `number = 5` on the 2-track playlist. -/
theorem c4_invalid_selection_amended_witness :
    play_song ["a", "b"] 5 streamingSt = (false, -1, streamingSt) ∧
      play_song_endpoint_app ["a", "b"] 5 streamingSt =
        (PlayResp.httpError 400 appInvalidMsg, streamingSt) ∧
      play_song_endpoint_ngrok ["a", "b"] 5 streamingSt =
        (PlayResp.httpError 400
          (ngrokInvalidMsg 5 (["a", "b"] : List String).length), streamingSt) ∧
      namesValidRange (ngrokInvalidMsg 5 (["a", "b"] : List String).length)
        (["a", "b"] : List String).length = true :=
  c4_invalid_selection_amended ["a", "b"] 5 streamingSt (Or.inr (by decide))

/-- app.py lines 146-178: the per-chunk pacing of `StreamingTrack`.  For each
chunk the loop adds the chunk length to `byte_counter`, computes
`elapsed = now - start_time` and `expected = byte_counter / BYTES_PER_SECOND`,
and sleeps `max(0, expected - elapsed)`.  The trace is the list of pairs
(chunk length, wall-clock time when the pacing code runs for that chunk) and
the result is the list of sleep durations; time is modelled by exact
rationals. -/
def paceSleeps (bps start : ℚ) : Nat → List (Nat × ℚ) → List ℚ
  | _, [] => []
  | counter, (len, now) :: rest =>
      max 0 (((counter + len : Nat) : ℚ) / bps - (now - start)) ::
        paceSleeps bps start (counter + len) rest

/-- app_ngrok.py line 148: the pacing sleep is computed from the current
chunk alone — `max(0, len(chunk) / BYTES_PER_SECOND - 0.005)` — with no
cumulative byte counter and no elapsed-time measurement. -/
def ngrokSleep (chunkLen : Nat) (bps : ℚ) : ℚ :=
  max 0 ((chunkLen : ℚ) / bps - 5 / 1000)

/-- The sleeps of a whole app_ngrok.py chunk loop on the same trace shape. -/
def ngrokPaceSleeps (bps : ℚ) : List (Nat × ℚ) → List ℚ
  | [] => []
  | (len, _) :: rest => ngrokSleep len bps :: ngrokPaceSleeps bps rest

/-- Claim C5 counterexample: two 16 KiB chunks emitted with no elapsed wall
time, at app_ngrok.py's byte rate.  The drift-correcting formula the claim
prescribes for every chunk (as implemented by app.py's loop, `paceSleeps`)
gives a second-chunk sleep of `32768 / 20000`; app_ngrok.py's loop sleeps
`max(0, 16384 / 20000 - 0.005)` for every chunk — a fixed per-chunk duration,
not the claimed formula. -/
theorem c5_fixed_pacing_cex :
    ngrokPaceSleeps (NGROK_BYTES_PER_SECOND : ℚ) [(16384, 0), (16384, 0)] ≠
      paceSleeps (NGROK_BYTES_PER_SECOND : ℚ) 0 0 [(16384, 0), (16384, 0)] := by
  simp only [ngrokPaceSleeps, paceSleeps, ngrokSleep, NGROK_BYTES_PER_SECOND]
  norm_num [max_def]

theorem paceSleeps_getD (bps start : ℚ) (trace : List (Nat × ℚ)) :
    ∀ counter i, i < trace.length →
      (paceSleeps bps start counter trace).getD i 0 =
        max 0 (((counter + ((trace.take (i + 1)).map Prod.fst).sum : Nat) : ℚ) / bps -
          ((trace.getD i (0, 0)).2 - start)) := by
  induction trace with
  | nil =>
    intro counter i hi
    simp at hi
  | cons p rest ih =>
    intro counter i hi
    obtain ⟨len, now⟩ := p
    cases i with
    | zero =>
      simp [paceSleeps]
    | succ i =>
      have hi' : i < rest.length := by simpa using hi
      show (paceSleeps bps start (counter + len) rest).getD i 0 = _
      rw [ih (counter + len) i hi']
      simp only [List.take_succ_cons, List.map_cons, List.sum_cons,
        List.getD_cons_succ]
      rw [Nat.add_assoc]

/-- Claim C5 as amended: in app.py's `StreamingTrack` the pacing sleep before
chunk `i` equals `max(0, cumulativeBytesEmittedSinceTrackStart / byteRate −
elapsedWallClockTimeSinceTrackStart)` — the drift-correcting formula, with
the cumulative byte count being the total length of chunks `0..i`; app_ngrok.py
instead sleeps `max(0, len(chunk)/byteRate − 0.005)`, a function of the
current chunk alone (a fixed duration for fixed-size chunks), which is not
that formula (see the counterexample). -/
theorem c5_drift_pacing_amended (bps start : ℚ) (trace : List (Nat × ℚ)) (i : Nat)
    (hi : i < trace.length) :
    (paceSleeps bps start 0 trace).getD i 0 =
      max 0 (((((trace.take (i + 1)).map Prod.fst).sum : Nat) : ℚ) / bps -
        ((trace.getD i (0, 0)).2 - start)) := by
  have h := paceSleeps_getD bps start trace 0 i hi
  rw [h]
  norm_num

/-- Witness for the amended C5: one 2-byte chunk at rate 1 byte per second,
paced 1 second after track start: the sleep is `max(0, 2/1 - 1) = 1`. -/
theorem c5_drift_pacing_amended_witness :
    (paceSleeps 1 0 0 [(2, 1)]).getD 0 0 =
      max 0 (((((([(2, 1)] : List (Nat × ℚ)).take (0 + 1)).map Prod.fst).sum : Nat) : ℚ) / 1 -
        ((([(2, 1)] : List (Nat × ℚ)).getD 0 (0, 0)).2 - 0)) :=
  c5_drift_pacing_amended 1 0 [(2, 1)] 0 (by decide)

/-- The playlist half of the source's `RadioState`: the playlist (track
locator list) and the current 0-based index.  (`song_map`, the derived
index-to-basename map, is rebuilt from the playlist on every refresh and
carries no independent state, so it is omitted.) -/
structure PlState where
  playlist : List String
  song_index : Nat
  deriving DecidableEq

/-- app_ngrok.py lines 63-75: `update_playlist`.  The scan result
(`sorted(glob(...))`, passed in as `new_playlist`) replaces the playlist
wholesale; then, if the new playlist is nonempty and the index in range, the
code reads `state.playlist[state.song_index]` — from the playlist it has just
replaced — and resets the index to 0 only if that entry is not in
`new_playlist`, which can never happen. -/
def update_playlist_ngrok (new_playlist : List String) (st : PlState) : PlState :=
  if new_playlist ≠ [] ∧ st.song_index < new_playlist.length then
    if new_playlist.getD st.song_index "" ∈ new_playlist then
      ({ playlist := new_playlist, song_index := st.song_index } : PlState)
    else { playlist := new_playlist, song_index := 0 }
  else { playlist := new_playlist, song_index := st.song_index }

/-- app.py lines 61-82: `update_playlist`.  The natural-order sort key calls
`re.split`, but app.py never imports `re`; for a nonempty scan the sort
raises `NameError`, the surrounding `except` logs it, and the state is left
untouched.  An empty scan sorts without invoking the key; the playlist is
then replaced if it changed, and the out-of-range index reset (lines 79-80)
is guarded by the truthiness of the now-empty playlist, so it never fires. -/
def update_playlist_app (scan : List String) (st : PlState) : PlState :=
  if scan = [] then
    if scan ≠ st.playlist then { playlist := scan, song_index := st.song_index }
    else st
  else st

/-- Claim C7 is wrong about the code (code bug).  First conjunct: app.py's
refresh on a nonempty scan (here one discovered file) dies in the sort key
with `NameError` (`re` is never imported), the `except` swallows it, and the
state is unchanged — the playlist is never rebuilt from a nonempty scan.
Remaining conjuncts: app_ngrok.py does rebuild wholesale, but when the track
at the current index no longer maps to the same path (index 1: "b" became
"c") the index is preserved instead of being reset to 0, because the
staleness check compares an entry of the already-replaced playlist against
that same playlist; indeed its refresh preserves the index unconditionally
(final conjunct). -/
theorem c7_refresh_never_resets :
    update_playlist_app ["/musica/1.mp3"] ⟨[], 0⟩ = ⟨[], 0⟩ ∧
      (update_playlist_ngrok ["a", "c"] ⟨["a", "b"], 1⟩).playlist = ["a", "c"] ∧
      (update_playlist_ngrok ["a", "c"] ⟨["a", "b"], 1⟩).song_index = 1 ∧
      ∀ (l : List String) (st : PlState),
        (update_playlist_ngrok l st).song_index = st.song_index := by
  refine ⟨by decide, by decide, by decide, ?_⟩
  intro l st
  unfold update_playlist_ngrok
  by_cases h : l ≠ [] ∧ st.song_index < l.length
  · have hmem : l.getD st.song_index "" ∈ l := by
      rw [List.getD_eq_getElem _ _ h.2]
      exact List.getElem_mem _
    rw [if_pos h, if_pos hmem]
  · rw [if_neg h]

/-- Outcome of opening and reading a track's byte source: the open may fail
outright, or the file yields some chunks and then either ends normally or
fails mid-read. -/
inductive FileOutcome where
  | openFail
  | chunksRead (chunks : List (List Nat)) (midReadError : Bool)
  deriving DecidableEq

/-- app.py lines 48-59: `get_audio_chunks`.  The generator yields full chunks
as they are read; any exception — open failure or mid-read I/O error — is
caught inside the generator, logged, and simply ends the iteration, so the
consumer sees no chunks on an open failure and, on a mid-read error, exactly
the chunks read before it. -/
def get_audio_chunks : FileOutcome → List (List Nat)
  | FileOutcome.openFail => []
  | FileOutcome.chunksRead cs _ => cs

/-- app.py lines 137-185 for one selected track, with no skip and no
shutdown: the existence check (lines 138-143) advances without writing when
the file is missing; otherwise every chunk the generator yields is written
into the buffer (lines 160-172), and the transition block (lines 181-183)
clears `is_playing` and advances the index — the same block runs when the
chunk iteration ended early because of a mid-read error. -/
def playSelectedTrack (cap n : Nat) (fileFound : Bool) (fo : FileOutcome)
    (bs : BufState) (st : EngState) : BufState × EngState :=
  if fileFound = false then
    (bs, { st with is_playing := false, song_index := (st.song_index + 1) % n })
  else
    (writeAll cap bs (get_audio_chunks fo),
      { st with is_playing := false, song_index := (st.song_index + 1) % n })

/-- Claim C8 counterexample: a mid-read I/O error strikes after one 2-byte
chunk was already read and buffered.  The engine advances without crashing,
but the 2 bytes of the failed track remain broadcast: the write cursor stands
at 2 (not 0, as «without writing partial data» would require) and reading
position 0 returns exactly those bytes — nothing is discarded. -/
theorem c8_leftover_bytes_cex :
    (playSelectedTrack 4 1 true (FileOutcome.chunksRead [[1, 2]] true)
        initBuf streamingSt).1.position = 2 ∧
      readFrom 4 (playSelectedTrack 4 1 true (FileOutcome.chunksRead [[1, 2]] true)
        initBuf streamingSt).1 0 2 = [1, 2] ∧
      (2 : Nat) ≠ 0 := by
  refine ⟨by decide, by decide, by decide⟩

/-- Claim C8 as amended: if the track file is missing or the byte source
cannot be opened, nothing is written (the buffer state is unchanged
byte-for-byte) and the engine logs, clears `is_playing` and advances to the
next track without crashing; if an I/O error occurs mid-read, the engine
likewise advances without crashing, but the chunks already read before the
failure remain written — the write cursor has advanced by exactly their total
length, and no buffered data is discarded. -/
theorem c8_unreadable_track_amended (cap n : Nat) (bs : BufState) (st : EngState)
    (fo : FileOutcome) (cs : List (List Nat)) :
    playSelectedTrack cap n false fo bs st =
        (bs, { st with is_playing := false,
                       song_index := (st.song_index + 1) % n }) ∧
      playSelectedTrack cap n true FileOutcome.openFail bs st =
        (bs, { st with is_playing := false,
                       song_index := (st.song_index + 1) % n }) ∧
      (playSelectedTrack cap n true (FileOutcome.chunksRead cs true) bs st).1 =
        writeAll cap bs cs ∧
      (playSelectedTrack cap n true (FileOutcome.chunksRead cs true)
          bs st).1.position = bs.position + (cs.map List.length).sum := by
  refine ⟨rfl, rfl, rfl, ?_⟩
  show (writeAll cap bs cs).position = bs.position + (cs.map List.length).sum
  exact writeAll_position cap bs cs

end Radio
